import Mathlib

/-!
Verification of `update_smm_data.py`: a script that fetches commodity price
series from a remote JSON endpoint, normalizes them into `{date, price}`
points, and substitutes a generated JavaScript data block into an HTML
document.

The script is embedded shallowly:
* Python floats are modelled as exact rationals (`ℚ`); `str()` of a float is
  modelled as exact decimal rendering, which agrees with Python on every value
  that is exactly a (shortest) finite decimal.
* The network call is abstracted into a `NetResult` value describing either a
  transport-level failure or a parsed response; the `try/except` structure of
  `fetch_smm_data` becomes a total function over `NetResult`, with in-loop
  exceptions modelled by `Except`.
* `re.sub` on the two concrete patterns of the script is modelled by explicit
  leftmost-match scanning over `List Char`.  Both patterns consist of literals
  and literal-terminated non-greedy gaps (`.*?lit`), so each gap matches up to
  the earliest later occurrence of its terminating literal; if that literal
  does not occur after the earliest candidate it occurs after no later one,
  hence backtracking can never turn a failure into a success and the
  earliest-occurrence scan is exact.
* File I/O is abstracted: `update_html_file` maps the document text read from
  disk to the text written back.
-/

/-- A Python value sitting in a JSON price field: a number or a string.
JSON `null` / absent keys are represented by `Option.none` at the use sites. -/
inductive PyVal where
  | num (q : ℚ)
  | str (s : String)
deriving DecidableEq

/-- One record of the provider response (`data.rows[i]`).  `date` models
`row.get('date', '')`, so an absent date is the empty string. -/
structure Row where
  date : String
  avg_price : Option PyVal
  low_price : Option PyVal
  high_price : Option PyVal
deriving DecidableEq

/-- A normalized price point `{date, price}` emitted by the fetcher. -/
structure Point where
  date : String
  price : ℚ
deriving DecidableEq

/-- The DataSet built by `main`: an insertion-ordered mapping from product key
to price series, modelled as an association list. -/
abbrev DataSet := List (String × List Point)

/-- Split a character list at the first occurrence of `pat`:
`splitFirst pat s = some (a, b)` when `s = a ++ pat ++ b` and no occurrence of
`pat` starts earlier than position `a.length`. -/
def splitFirst (pat : List Char) : List Char → Option (List Char × List Char)
  | [] => if pat.isEmpty then some ([], []) else none
  | c :: cs =>
    if pat.isPrefixOf (c :: cs) then some ([], (c :: cs).drop pat.length)
    else
      match splitFirst pat cs with
      | some (a, b) => some (c :: a, b)
      | none => none

/-- The decimal digit character for `n < 10` (clamped at `'9'`). -/
def digitChar (n : Nat) : Char :=
  match n with
  | 0 => '0' | 1 => '1' | 2 => '2' | 3 => '3' | 4 => '4'
  | 5 => '5' | 6 => '6' | 7 => '7' | 8 => '8' | _ => '9'

/-- The numeric value of a decimal digit character. -/
def digitVal (c : Char) : Nat := c.toNat - 48

/-- Decimal digits of `n`, most significant first; `fuel` bounds the recursion
depth (any `fuel > n` is enough, see `natToDecAux_congr`). -/
def natToDecAux : Nat → Nat → List Char
  | 0, _ => []
  | fuel + 1, n =>
    if n < 10 then [digitChar n]
    else natToDecAux fuel (n / 10) ++ [digitChar (n % 10)]

/-- Decimal rendering of a natural number, e.g. `natToDec 105 = ['1','0','5']`. -/
def natToDec (n : Nat) : List Char := natToDecAux (n + 1) n

/-- Numeric value of a list of decimal digit characters (leading zeros allowed). -/
def parseNatList (ds : List Char) : Nat := ds.foldl (fun acc c => acc * 10 + digitVal c) 0

/-- Left-pad a digit string with `'0'` up to width `e`. -/
def padLeft (e : Nat) (ds : List Char) : List Char :=
  List.replicate (e - ds.length) '0' ++ ds

/-- The least `k` with `d ∣ 10 ^ k`, when one exists (it does exactly when `d`
has no prime factors besides 2 and 5; any such `k` is at most `d`). -/
def decExp (d : Nat) : Option Nat :=
  (List.range (d + 1)).find? (fun k => 10 ^ k % d = 0)

/-- Parse an unsigned decimal numeral, with or without a fractional part. -/
def parseUnsigned (cs : List Char) : Option ℚ :=
  match splitFirst ['.'] cs with
  | none =>
    if cs ≠ [] ∧ cs.all Char.isDigit then some (parseNatList cs : ℚ) else none
  | some (ip, fp) =>
    if ip ≠ [] ∧ fp ≠ [] ∧ ip.all Char.isDigit ∧ fp.all Char.isDigit then
      some ((parseNatList ip * 10 ^ fp.length + parseNatList fp : ℚ) / (10 ^ fp.length : ℚ))
    else none

/-- Parse a decimal numeral with optional leading minus sign.  This models the
numerals accepted by Python `float()` as far as this script produces or
consumes them (plain decimal notation; exponents, infinities and surrounding
whitespace are never produced by the script and are not modelled). -/
def parseDec (cs : List Char) : Option ℚ :=
  match cs with
  | '-' :: rest => (parseUnsigned rest).map (fun q => -q)
  | _ => parseUnsigned cs

/-- Models Python `float(x)` on a JSON field value: numbers convert to their
exact rational value, numeric strings are parsed, anything else raises
(`Except.error`). -/
def pyFloat : PyVal → Except String ℚ
  | .num q => .ok q
  | .str s =>
    match parseDec s.data with
    | some q => .ok q
    | none => .error "could not convert string to float"

/-- Models Python `str()` of a float whose exact value is `q`: the shortest
exact decimal rendering (always with at least one fractional digit, as Python
prints for floats), e.g. `showPrice 10.5 = "10.5"`, `showPrice 11 = "11.0"`.
The fallback branch for denominators not dividing a power of ten can hold no
float value and is never reached from a parsed decimal. -/
def showPrice (q : ℚ) : String :=
  match decExp q.den with
  | some k =>
    let e := max k 1
    let m := q.num.natAbs * 10 ^ e / q.den
    String.mk ((if q.num < 0 then ['-'] else []) ++
      natToDec (m / 10 ^ e) ++ '.' :: padLeft e (natToDec (m % 10 ^ e)))
  | none => toString q.num ++ "/" ++ toString q.den

/-- Strict lexicographic order on character lists by code point: exactly the
comparison Python uses on the `date` strings when sorting. -/
def charListLt : List Char → List Char → Bool
  | [], [] => false
  | [], _ :: _ => true
  | _ :: _, [] => false
  | a :: as, b :: bs => if a = b then charListLt as bs else decide (a < b)

/-- `a.date < b.date` in Python string order. -/
def dateLtB (a b : Point) : Bool := charListLt a.date.data b.date.data

/-- Insert `x` into a list sorted by date, before any element of equal date
(so that, folding from the left, earlier input elements stay first). -/
def insertByDate (x : Point) : List Point → List Point
  | [] => [x]
  | y :: ys => if dateLtB y x then y :: insertByDate x ys else x :: y :: ys

/-- Models `sorted(result, key=lambda x: x['date'])`.  A stable sort is
extensionally determined by its comparison, so stable insertion sort is the
same function as Python's stable sort for this key. -/
def sortByDate : List Point → List Point
  | [] => []
  | x :: xs => insertByDate x (sortByDate xs)

/-- Models one iteration of the row loop of `fetch_smm_data`:
`ok (some pt)` when the row contributes a point, `ok none` when it is skipped,
`error` when a `float()` conversion raises. -/
def processRow (row : Row) : Except String (Option Point) :=
  match row.avg_price with
  | some p =>
    if row.date ≠ "" then
      match pyFloat p with
      | .error e => .error e
      | .ok q => .ok (some { date := row.date, price := q })
    else .ok none
  | none =>
    match row.low_price, row.high_price with
    | some l, some h =>
      match pyFloat l with
      | .error e => .error e
      | .ok lq =>
        match pyFloat h with
        | .error e => .error e
        | .ok hq =>
          if row.date ≠ "" then .ok (some { date := row.date, price := (lq + hq) / 2 })
          else .ok none
    | _, _ => .ok none

/-- Models the whole row loop: an exception in any iteration aborts the loop
(and is caught by the enclosing handler); otherwise the contributed points are
collected in row order. -/
def processRows : List Row → Except String (List Point)
  | [] => .ok []
  | r :: rest =>
    match processRow r with
    | .error e => .error e
    | .ok none => processRows rest
    | .ok (some pt) =>
      match processRows rest with
      | .error e => .error e
      | .ok pts => .ok (pt :: pts)

/-- The observable outcome of the HTTP request in `fetch_smm_data`: a
transport-level failure (`HTTPError`, `URLError`, or any other exception
raised while requesting or parsing, e.g. malformed JSON), or a parsed JSON
body with its `status` field (`none` when absent) and its `data.rows` list
(`[]` when absent). -/
inductive NetResult where
  | httpError (code : Nat)
  | urlError (reason : String)
  | exception (msg : String)
  | response (status : Option String) (rows : List Row)
deriving DecidableEq

/-- Models `fetch_smm_data` as a function of the request's outcome.  The three
failure constructors land in the three `except` arms and return `[]`; a
response with a non-`"ok"` status returns `[]`; a conversion error inside the
row loop escapes to the catch-all arm and returns `[]`; otherwise the collected
points are returned sorted ascending by date string. -/
def fetch_smm_data : NetResult → List Point
  | .httpError _ => []
  | .urlError _ => []
  | .exception _ => []
  | .response status rows =>
    if status = some "ok" then
      match processRows rows with
      | .error _ => []
      | .ok result => sortByDate result
    else []

/-- Models the f-string item of `format_data_for_js`:
`{date: "<date>", price: <price>}`. -/
def formatItem (p : Point) : String :=
  "\x7bdate: \"" ++ p.date ++ "\", price: " ++ showPrice p.price ++ "\x7d"

/-- Models `sep.join(parts)`. -/
def joinSep (sep : String) : List String → String
  | [] => ""
  | [x] => x
  | x :: xs => x ++ sep ++ joinSep sep xs

/-- Models the grouping loop `for i in range(0, len(items), 2)`. -/
def chunk2 {α : Type} : List α → List (List α)
  | [] => []
  | [a] => [[a]]
  | a :: b :: rest => [a, b] :: chunk2 rest

/-- Models `format_data_for_js`: the empty series becomes `"[]"`; otherwise
one item per point, two items per line, with the source's fixed indentation. -/
def format_data_for_js (data : List Point) : String :=
  if data = [] then "[]"
  else
    let items := data.map formatItem
    let lines := (chunk2 items).map (fun chunk => "                " ++ joinSep ", " chunk)
    "[\n" ++ joinSep ",\n" lines ++ "\n            ]"

/-- The leading literal of the substitution pattern: `// SMM真实数据`. -/
def m1 : List Char := "// SMM真实数据".data

/-- The middle literal of the substitution pattern: `const smmData = {`. -/
def m2 : List Char := "const smmData = \x7b".data

/-- The closing literal of the substitution pattern: newline, eight spaces,
`};`. -/
def m3 : List Char := "\n        \x7d;".data

/-- Match the pattern `// SMM真实数据.*?const smmData = \{.*?\n        \};`
(with `re.DOTALL`) at the start of `s`, returning the matched span and the
remainder.  Each `.*?` extends to the earliest later occurrence of the next
literal; as both gaps are literal-terminated this is exactly Python's
non-greedy semantics (see the header comment). -/
def matchAt (s : List Char) : Option (List Char × List Char) :=
  if m1.isPrefixOf s then
    match splitFirst m2 (s.drop m1.length) with
    | none => none
    | some (u, r) =>
      match splitFirst m3 r with
      | none => none
      | some (v, rest) => some (m1 ++ u ++ m2 ++ v ++ m3, rest)
  else none

/-- Leftmost match of a start-anchored matcher `p` in `s`:
`some (pre, matched, post)` where `p` matches at position `pre.length` with
span `matched` and remainder `post`, and `p` fails at every earlier
position. -/
def scanFirst (p : List Char → Option (List Char × List Char)) :
    List Char → Option (List Char × List Char × List Char)
  | [] => none
  | c :: cs =>
    match p (c :: cs) with
    | some (m, rest) => some ([], m, rest)
    | none =>
      match scanFirst p cs with
      | some (a, m, r) => some (c :: a, m, r)
      | none => none

/-- Fuel-bounded worker for `replaceAll`: replace the leftmost match, then
continue scanning strictly after it (the replacement text is not rescanned,
as with `re.sub`).  Every matcher used here consumes at least one character,
so `s.length` fuel always suffices (`replaceAllAux_congr`). -/
def replaceAllAux (p : List Char → Option (List Char × List Char)) (repl : List Char) :
    Nat → List Char → List Char
  | 0, s => s
  | fuel + 1, s =>
    match scanFirst p s with
    | none => s
    | some (a, _, r) => a ++ repl ++ replaceAllAux p repl fuel r

/-- Replace every non-overlapping occurrence found by the matcher `p`,
left to right: the semantics of `re.sub` with the default `count=0` for a
pattern whose matches are never empty.  The script's replacement strings
contain no backslash, so replacement is literal. -/
def replaceAll (p : List Char → Option (List Char × List Char))
    (repl : List Char) (s : List Char) : List Char :=
  replaceAllAux p repl s.length s

/-- Soundness of a start-anchored matcher: a reported match is a nonempty
initial segment of the input. -/
def MatcherSound (p : List Char → Option (List Char × List Char)) : Prop :=
  ∀ s m r, p s = some (m, r) → s = m ++ r ∧ m ≠ []

/-- Leftmost match of the data-block pattern in `s`. -/
def firstMatch : List Char → Option (List Char × List Char × List Char) :=
  scanFirst matchAt

/-- Models `re.sub(pattern, repl, content, flags=re.DOTALL)` for the
data-block pattern, default `count=0`. -/
def subAll (repl : List Char) (s : List Char) : List Char :=
  replaceAll matchAt repl s

/-- A document made of a leading text and a sequence of data blocks: the
entry `(u, v, B)` contributes the block `m1 ++ u ++ m2 ++ v ++ m3` followed
by the text `B` and then the remaining blocks, so `docOf A bs` has exactly
`bs.length` blocks interleaved with the gap texts. -/
def docOf (A : List Char) : List (List Char × List Char × List Char) → List Char
  | [] => A
  | (u, v, B) :: rest => A ++ (m1 ++ (u ++ (m2 ++ (v ++ (m3 ++ docOf B rest)))))

/-- The same document with every block replaced by `repl` and every gap text
kept. -/
def replacedOf (repl : List Char) (A : List Char) :
    List (List Char × List Char × List Char) → List Char
  | [] => A
  | (_, _, B) :: rest => A ++ repl ++ replacedOf repl B rest

/-- The pattern's matches in `docOf A bs` are exactly the blocks of `bs`: no
match starts inside a gap text, and within each block the middle and closing
literals first occur at their block positions. -/
def wellFormedBlocks (A : List Char) : List (List Char × List Char × List Char) → Bool
  | [] => decide (∀ i, i < A.length → matchAt (A.drop i) = none)
  | (u, v, B) :: rest =>
    decide (∀ i, i < A.length →
      matchAt ((A ++ (m1 ++ (u ++ (m2 ++ (v ++ (m3 ++ docOf B rest)))))).drop i) = none) &&
    decide (∀ i, i < u.length →
      m2.isPrefixOf ((u ++ (m2 ++ (v ++ (m3 ++ docOf B rest)))).drop i) = false) &&
    decide (∀ i, i < v.length →
      m3.isPrefixOf ((v ++ (m3 ++ docOf B rest)).drop i) = false) &&
    wellFormedBlocks B rest

/-- The literal label of the date-stamp pattern: `数据更新时间: `. -/
def dateLabel : List Char := "数据更新时间: ".data

/-- Match the pattern `数据更新时间: \d{4}-\d{2}-\d{2}` at the start of `s`.
`\d` is modelled as the ASCII digits (the document's dates are ASCII). -/
def dateMatchAt (s : List Char) : Option (List Char × List Char) :=
  if dateLabel.isPrefixOf s then
    match s.drop dateLabel.length with
    | a1 :: a2 :: a3 :: a4 :: h1 :: b1 :: b2 :: h2 :: c1 :: c2 :: rest =>
      if a1.isDigit && a2.isDigit && a3.isDigit && a4.isDigit && (h1 == '-') &&
          b1.isDigit && b2.isDigit && (h2 == '-') && c1.isDigit && c2.isDigit then
        some (dateLabel ++ [a1, a2, a3, a4, h1, b1, b2, h2, c1, c2], rest)
      else none
    | _ => none
  else none

/-- Leftmost match of the date-stamp pattern. -/
def dateFirstMatch : List Char → Option (List Char × List Char × List Char) :=
  scanFirst dateMatchAt

/-- Models `re.sub(r'数据更新时间: \d{4}-\d{2}-\d{2}', ..., content)` with the
default `count=0`. -/
def dateSubAll (repl : List Char) (s : List Char) : List Char :=
  replaceAll dateMatchAt repl s

/-- Models `smm_data.get(key, [])`. -/
def getSeries (ds : DataSet) (k : String) : List Point := (ds.lookup k).getD []

/-- Models the `smm_data_js` template of `update_html_file`: the synthesized
replacement block, with the source's fixed, hardcoded key order. -/
def buildSmmDataJs (ds : DataSet) (update_date : String) : String :=
  "        // SMM真实数据 (" ++ update_date ++ "获取)\n        const smmData = \x7b\n            // 原材料\n            silver: " ++
    format_data_for_js (getSeries ds "silver") ++
  ",\n            wafer: " ++ format_data_for_js (getSeries ds "wafer") ++
  ",\n            silicon: " ++ format_data_for_js (getSeries ds "silicon") ++
  ",\n            cell: " ++ format_data_for_js (getSeries ds "cell") ++
  ",\n            // 组件\n            bcModule: " ++ format_data_for_js (getSeries ds "bcModule") ++
  ",\n            topconDomestic: " ++ format_data_for_js (getSeries ds "topconDomestic") ++
  ",\n            hjtModule: " ++ format_data_for_js (getSeries ds "hjtModule") ++
  ",\n            topconFob182: " ++ format_data_for_js (getSeries ds "topconFob182") ++
  ",\n            topconFob210: " ++ format_data_for_js (getSeries ds "topconFob210") ++
  ",\n            percFob: " ++ format_data_for_js (getSeries ds "percFob") ++
  ",\n            // 成本指数\n            topconIntegrated: " ++ format_data_for_js (getSeries ds "topconIntegrated") ++
  ",\n            topconSemi: " ++ format_data_for_js (getSeries ds "topconSemi") ++
  "\n        \x7d;"

/-- Models `update_html_file` on the document text (reading and writing the
file are abstracted away): substitute the data-block pattern everywhere by the
synthesized block, then substitute the date-stamp pattern everywhere by
`数据更新时间: <update_date>`. -/
def update_html_file (content : List Char) (smm_data : DataSet) (update_date : String) : List Char :=
  let new_content := subAll (buildSmmDataJs smm_data update_date).data content
  dateSubAll (dateLabel ++ update_date.data) new_content

/-- The product registry `SMM_PRODUCTS`, in source order. -/
def SMM_PRODUCTS : List (String × String) :=
  [("silver", "202512220022"), ("wafer", "202303220001"), ("silicon", "202501060003"),
   ("cell", "202210280001"), ("bcModule", "202506060001"), ("topconDomestic", "202310160001"),
   ("hjtModule", "202505270001"), ("topconFob182", "202505060001"), ("topconFob210", "202505060002"),
   ("percFob", "202507240001"), ("topconIntegrated", "202412190004"), ("topconSemi", "202412190005")]

/-- The keys fetched with the longer cost-index window. -/
def costKeys : List String := ["topconIntegrated", "topconSemi"]

/-- Models the fetch loop of `main` over an arbitrary product list:
`fetchRes product_id start_date end_date` abstracts the series returned by
`fetch_smm_data` for that request, and a key is stored only when its series is
non-empty (`if data: smm_data[key] = data`). -/
def fetchPassOn (ps : List (String × String)) (fetchRes : String → String → String → List Point)
    (start_date end_date cost_start_date : String) : DataSet :=
  ps.filterMap (fun kv =>
    let data :=
      if kv.1 ∈ costKeys then fetchRes kv.2 cost_start_date end_date
      else fetchRes kv.2 start_date end_date
    if data = [] then none else some (kv.1, data))

/-- The fetch pass of `main` over the full registry. -/
def fetchPass (fetchRes : String → String → String → List Point)
    (start_date end_date cost_start_date : String) : DataSet :=
  fetchPassOn SMM_PRODUCTS fetchRes start_date end_date cost_start_date

/-- The `required_keys` list of `main`. -/
def required_keys : List String := ["silver", "wafer", "silicon", "cell"]

/-- Models `[k for k in required_keys if k not in smm_data or not smm_data[k]]`. -/
def missingKeys (ds : DataSet) : List String :=
  required_keys.filter (fun k =>
    match ds.lookup k with
    | none => true
    | some s => s.isEmpty)

/-- The observable outcome of `main` after the fetch pass: either the process
exits with a code after printing the missing keys, or the document is updated
to the given new text. -/
inductive MainOutcome where
  | exited (code : Nat) (missing : List String)
  | updated (newContent : List Char)
deriving DecidableEq

/-- Models the tail of `main`: if any required key is missing or empty the
process prints the missing keys and exits with status 1 without calling
`update_html_file`; otherwise the document is updated. -/
def mainAfterFetch (ds : DataSet) (content : List Char) (update_date : String) : MainOutcome :=
  if missingKeys ds ≠ [] then .exited 1 (missingKeys ds)
  else .updated (update_html_file content ds update_date)

/-- A point whose formatted item can be re-parsed: its price is an exact
finite decimal (every Python float value printed in decimal notation is) and
its date contains no quote character. -/
def goodPoint (p : Point) : Bool :=
  (decExp p.price.den).isSome && decide ('"' ∉ p.date.data)

/-- Parse the price part of an item: everything up to the closing brace,
fed to the decimal parser. -/
def parseAfterPrice (cs : List Char) : Option (ℚ × List Char) :=
  match splitFirst ['\x7d'] cs with
  | none => none
  | some (priceChars, rest4) =>
    match parseDec priceChars with
    | none => none
    | some q => some (q, rest4)

/-- Parse the part of an item after the closing date quote: the literal
`, price: `, then the price. -/
def parseAfterDate (dateChars : List Char) (cs : List Char) : Option (Point × List Char) :=
  match cs with
  | ',' :: ' ' :: 'p' :: 'r' :: 'i' :: 'c' :: 'e' :: ':' :: ' ' :: rest3 =>
    match parseAfterPrice rest3 with
    | none => none
    | some (q, rest4) => some ({ date := String.mk dateChars, price := q }, rest4)
  | _ => none

/-- Parse one `{date: "...", price: ...}` item, returning the point and the
remaining input. -/
def parseItem (cs : List Char) : Option (Point × List Char) :=
  match cs with
  | '\x7b' :: 'd' :: 'a' :: 't' :: 'e' :: ':' :: ' ' :: '"' :: rest =>
    match splitFirst ['"'] rest with
    | none => none
    | some (dateChars, rest2) => parseAfterDate dateChars rest2
  | _ => none

/-- The sixteen-space item indentation of `format_data_for_js`. -/
def indent16 : List Char := "                ".data

/-- The closing of a formatted block: newline, twelve spaces, `]`. -/
def endMarker : List Char := "\n            ]".data

/-- After one item has been parsed, consume the separator and continue with
`next`: the block either ends (`endMarker`), continues on the same line after
`", "`, or continues on the next line after `",\n"` and the indentation. -/
def parseSep (next : List Char → Option (List Point)) (p : Point)
    (rest : List Char) : Option (List Point) :=
  if rest = endMarker then some [p]
  else
    match rest with
    | ',' :: ' ' :: rest2 => (next rest2).map (p :: ·)
    | ',' :: '\n' :: rest2 =>
      if indent16.isPrefixOf rest2 then (next (rest2.drop 16)).map (p :: ·)
      else none
    | _ => none

/-- Parse the items of a formatted block after the opening `[\n` and leading
indentation: items separated by `", "` within a line and by `",\n" ++ indent`
across lines, terminated by `endMarker`.  `fuel ≥ input length` suffices. -/
def parseItems : Nat → List Char → Option (List Point)
  | 0, _ => none
  | fuel + 1, cs =>
    match parseItem cs with
    | none => none
    | some (p, rest) => parseSep (parseItems fuel) p rest

/-- Re-parse the character list of a block emitted by `format_data_for_js`. -/
def parsePointsList (cs : List Char) : Option (List Point) :=
  match cs with
  | ['[', ']'] => some []
  | '[' :: '\n' :: rest =>
    if indent16.isPrefixOf rest then parseItems rest.length (rest.drop 16) else none
  | _ => none

/-- Re-parse a block emitted by `format_data_for_js` back into a point list. -/
def parsePoints (s : String) : Option (List Point) :=
  parsePointsList s.data

/-- The characters of the non-empty-series body of `format_data_for_js`, after
the opening `[\n` and the first line's indentation: the items in order, two
per line, through the closing `\n            ]`.  (`format_da_eq_bodyChars`
connects this recursion to the chunking-and-joining of the source.) -/
def bodyChars : List Point → List Char
  | [] => endMarker
  | [p] => (formatItem p).data ++ endMarker
  | p :: q :: rest =>
    (formatItem p).data ++ ',' :: ' ' :: ((formatItem q).data ++
      (if rest = [] then endMarker else ',' :: '\n' :: (indent16 ++ bodyChars rest)))

/-! ## Basic facts about `isPrefixOf` and `splitFirst` -/

theorem isPrefixOf_append_self : ∀ (l t : List Char), l.isPrefixOf (l ++ t) = true
  | [], _ => by simp [List.isPrefixOf]
  | c :: l, t => by simp [List.isPrefixOf, isPrefixOf_append_self l t]

theorem eq_append_of_isPrefixOf : ∀ {l s : List Char}, l.isPrefixOf s = true →
    s = l ++ s.drop l.length
  | [], s => by simp
  | c :: l, [] => by simp [List.isPrefixOf]
  | c :: l, d :: t => by
    simp only [List.isPrefixOf, Bool.and_eq_true, beq_iff_eq]
    rintro ⟨rfl, h⟩
    simpa using eq_append_of_isPrefixOf h

theorem splitFirst_structure {pat : List Char} : ∀ {s a b : List Char},
    splitFirst pat s = some (a, b) → s = a ++ pat ++ b
  | [], a, b => by
    simp only [splitFirst]
    split
    · rename_i h
      intro he
      cases he
      simp_all [List.isEmpty_iff]
    · intro h; cases h
  | c :: cs, a, b => by
    simp only [splitFirst]
    split
    · rename_i h
      intro he
      cases he
      simpa [List.append_assoc] using eq_append_of_isPrefixOf h
    · rename_i h
      cases hrec : splitFirst pat cs with
      | none => intro h; cases h
      | some ab =>
        obtain ⟨a', b'⟩ := ab
        intro he
        cases he
        have := splitFirst_structure hrec
        simp [this]

theorem splitFirst_append (pat : List Char) (hpat : pat ≠ []) :
    ∀ (a b : List Char),
      (∀ i, i < a.length → pat.isPrefixOf ((a ++ (pat ++ b)).drop i) = false) →
      splitFirst pat (a ++ (pat ++ b)) = some (a, b)
  | [], b, _ => by
    rw [List.nil_append]
    cases hpp : pat with
    | nil => exact absurd hpp hpat
    | cons p ps =>
      rw [List.cons_append, splitFirst]
      have h1 : (p :: ps).isPrefixOf (p :: (ps ++ b)) = true :=
        isPrefixOf_append_self (p :: ps) b
      rw [h1]
      have h2 : (p :: (ps ++ b)).drop (p :: ps).length = b :=
        List.drop_left (p :: ps) b
      simp [h2]
  | c :: a, b, h => by
    have h0 := h 0 (by simp)
    rw [List.drop_zero] at h0
    rw [List.cons_append] at h0
    rw [List.cons_append, splitFirst, h0]
    simp only [Bool.false_eq_true, if_false]
    rw [splitFirst_append pat hpat a b (fun i hi => by
      have := h (i + 1) (by simpa using Nat.succ_lt_succ hi)
      simpa using this)]

/-! ## Generic facts about `scanFirst` and `replaceAll` -/

theorem scanFirst_structure {p : List Char → Option (List Char × List Char)}
    (hp : MatcherSound p) : ∀ {s a m r : List Char},
    scanFirst p s = some (a, m, r) → s = a ++ (m ++ r) ∧ m ≠ []
  | [], a, m, r => by intro h; cases h
  | c :: cs, a, m, r => by
    simp only [scanFirst]
    cases hc : p (c :: cs) with
    | some mr =>
      obtain ⟨m', r'⟩ := mr
      intro he
      cases he
      have := hp _ _ _ hc
      simpa using this
    | none =>
      cases hrec : scanFirst p cs with
      | none => intro h; cases h
      | some amr =>
        obtain ⟨a', m', r'⟩ := amr
        intro he
        cases he
        have := scanFirst_structure hp hrec
        simp [this.1, this.2]

theorem scanFirst_pos {p : List Char → Option (List Char × List Char)}
    (hp : MatcherSound p) : ∀ (A : List Char) {s m r : List Char},
    (∀ i, i < A.length → p ((A ++ s).drop i) = none) →
    p s = some (m, r) →
    scanFirst p (A ++ s) = some (A, m, r)
  | [], s, m, r => by
    intro _ hs
    obtain ⟨hse, hm⟩ := hp _ _ _ hs
    cases s with
    | nil => exact absurd (List.append_eq_nil.mp hse.symm).1 hm
    | cons c cs =>
      rw [List.nil_append, scanFirst, hs]
  | c :: A, s, m, r => by
    intro h hs
    have h0 := h 0 (by simp)
    rw [List.drop_zero] at h0
    rw [List.cons_append] at h0
    rw [List.cons_append, scanFirst, h0]
    rw [scanFirst_pos hp A (fun i hi => by
      have := h (i + 1) (by simpa using Nat.succ_lt_succ hi)
      simpa using this) hs]

theorem scanFirst_none {p : List Char → Option (List Char × List Char)} :
    ∀ {s : List Char}, (∀ i, i < s.length → p (s.drop i) = none) →
    scanFirst p s = none
  | [], _ => rfl
  | c :: cs, h => by
    have h0 := h 0 (by simp)
    rw [List.drop_zero] at h0
    rw [scanFirst, h0, scanFirst_none (fun i hi => by
      have := h (i + 1) (by simpa using Nat.succ_lt_succ hi)
      simpa using this)]

theorem replaceAllAux_nil {p : List Char → Option (List Char × List Char)}
    {repl : List Char} : ∀ (f : Nat), replaceAllAux p repl f [] = []
  | 0 => rfl
  | f + 1 => by rw [replaceAllAux, scanFirst]

theorem replaceAllAux_succ_none {p : List Char → Option (List Char × List Char)}
    {repl s : List Char} {f : Nat} (h : scanFirst p s = none) :
    replaceAllAux p repl (f + 1) s = s := by
  rw [replaceAllAux, h]

theorem replaceAllAux_succ_some {p : List Char → Option (List Char × List Char)}
    {repl s a m r : List Char} {f : Nat} (h : scanFirst p s = some (a, m, r)) :
    replaceAllAux p repl (f + 1) s = a ++ repl ++ replaceAllAux p repl f r := by
  rw [replaceAllAux, h]

theorem length_lt_of_scanFirst {p : List Char → Option (List Char × List Char)}
    (hp : MatcherSound p) {s a m r : List Char}
    (h : scanFirst p s = some (a, m, r)) : r.length < s.length := by
  have hst := scanFirst_structure hp h
  have := congrArg List.length hst.1
  simp only [List.length_append] at this
  have hm : 1 ≤ m.length := by
    cases hmm : m with
    | nil => exact absurd hmm hst.2
    | cons x xs => simp
  omega

theorem replaceAllAux_congr {p : List Char → Option (List Char × List Char)}
    {repl : List Char} (hp : MatcherSound p) :
    ∀ (f₁ f₂ : Nat) (s : List Char), s.length ≤ f₁ → s.length ≤ f₂ →
      replaceAllAux p repl f₁ s = replaceAllAux p repl f₂ s
  | 0, f₂, s, h₁, _ => by
    have hs : s = [] := by
      cases s with
      | nil => rfl
      | cons c cs => simp at h₁
    subst hs
    rw [replaceAllAux_nil, replaceAllAux_nil]
  | f₁ + 1, f₂, s, h₁, h₂ => by
    cases f₂ with
    | zero =>
      have hs : s = [] := by
        cases s with
        | nil => rfl
        | cons c cs => simp at h₂
      subst hs
      rw [replaceAllAux_nil, replaceAllAux_nil]
    | succ f₂ =>
      cases hscan : scanFirst p s with
      | none => rw [replaceAllAux_succ_none hscan, replaceAllAux_succ_none hscan]
      | some amr =>
        obtain ⟨a, m, r⟩ := amr
        rw [replaceAllAux_succ_some hscan, replaceAllAux_succ_some hscan]
        have hr := length_lt_of_scanFirst hp hscan
        rw [replaceAllAux_congr hp f₁ r.length r (by omega) (le_refl _),
          replaceAllAux_congr hp f₂ r.length r (by omega) (le_refl _)]

theorem replaceAll_none {p : List Char → Option (List Char × List Char)}
    {repl s : List Char} (h : scanFirst p s = none) : replaceAll p repl s = s := by
  cases s with
  | nil => rfl
  | cons c cs =>
    rw [replaceAll, List.length_cons, replaceAllAux_succ_none h]

theorem replaceAll_some {p : List Char → Option (List Char × List Char)}
    {repl s a m r : List Char} (hp : MatcherSound p)
    (h : scanFirst p s = some (a, m, r)) :
    replaceAll p repl s = a ++ repl ++ replaceAll p repl r := by
  cases s with
  | nil => cases h
  | cons c cs =>
    rw [replaceAll, List.length_cons, replaceAllAux_succ_some h]
    have hr := length_lt_of_scanFirst hp h
    rw [replaceAll, replaceAllAux_congr hp cs.length r.length r
      (by simpa using Nat.lt_succ_iff.mp hr) (le_refl _)]

/-! ## The two matchers are sound -/

theorem matchAt_sound : MatcherSound matchAt := by
  intro s m r h
  unfold matchAt at h
  split at h
  · rename_i hpre
    cases hsf1 : splitFirst m2 (s.drop m1.length) with
    | none => rw [hsf1] at h; cases h
    | some ur =>
      obtain ⟨u, rr⟩ := ur
      rw [hsf1] at h
      dsimp only at h
      cases hsf2 : splitFirst m3 rr with
      | none => rw [hsf2] at h; cases h
      | some vrest =>
        obtain ⟨v, rest⟩ := vrest
        rw [hsf2] at h
        dsimp only at h
        cases h
        have e1 := eq_append_of_isPrefixOf hpre
        have e2 := splitFirst_structure hsf1
        have e3 := splitFirst_structure hsf2
        constructor
        · rw [e1, e2, e3]
          simp [List.append_assoc]
        · simp [m1]
  · cases h

theorem dateMatchAt_sound : MatcherSound dateMatchAt := by
  intro s m r h
  unfold dateMatchAt at h
  split at h
  · rename_i hpre
    split at h
    · rename_i a1 a2 a3 a4 h1 b1 b2 h2 c1 c2 rest hdrop
      split at h
      · cases h
        have e1 := eq_append_of_isPrefixOf hpre
        constructor
        · rw [e1, hdrop]
          simp
        · simp [dateLabel]
      · cases h
    · cases h
  · cases h

/-! ## Positive match lemmas for the two patterns -/

theorem matchAt_pos (u v tail : List Char)
    (hu : ∀ i, i < u.length →
      m2.isPrefixOf ((u ++ (m2 ++ (v ++ (m3 ++ tail)))).drop i) = false)
    (hv : ∀ i, i < v.length → m3.isPrefixOf ((v ++ (m3 ++ tail)).drop i) = false) :
    matchAt (m1 ++ (u ++ (m2 ++ (v ++ (m3 ++ tail))))) =
      some (m1 ++ u ++ m2 ++ v ++ m3, tail) := by
  have h1 : m1.isPrefixOf (m1 ++ (u ++ (m2 ++ (v ++ (m3 ++ tail))))) = true :=
    isPrefixOf_append_self ..
  have h2 : (m1 ++ (u ++ (m2 ++ (v ++ (m3 ++ tail))))).drop m1.length =
      u ++ (m2 ++ (v ++ (m3 ++ tail))) := List.drop_left ..
  have h3 := splitFirst_append m2 (by decide) u (v ++ (m3 ++ tail)) hu
  have h4 := splitFirst_append m3 (by decide) v tail hv
  unfold matchAt
  rw [h1]
  simp only [if_true]
  rw [h2, h3]
  dsimp only
  rw [h4]

theorem dateMatchAt_pos (d1 d2 d3 d4 d5 d6 d7 d8 : Char) (rest : List Char)
    (h : (d1.isDigit && d2.isDigit && d3.isDigit && d4.isDigit &&
          d5.isDigit && d6.isDigit && d7.isDigit && d8.isDigit) = true) :
    dateMatchAt (dateLabel ++ ([d1, d2, d3, d4, '-', d5, d6, '-', d7, d8] ++ rest)) =
      some (dateLabel ++ [d1, d2, d3, d4, '-', d5, d6, '-', d7, d8], rest) := by
  have h1 : dateLabel.isPrefixOf
      (dateLabel ++ ([d1, d2, d3, d4, '-', d5, d6, '-', d7, d8] ++ rest)) = true :=
    isPrefixOf_append_self ..
  have h2 : (dateLabel ++ ([d1, d2, d3, d4, '-', d5, d6, '-', d7, d8] ++ rest)).drop
      dateLabel.length = [d1, d2, d3, d4, '-', d5, d6, '-', d7, d8] ++ rest :=
    List.drop_left ..
  unfold dateMatchAt
  rw [h1]
  simp only [if_true]
  rw [h2]
  simp only [List.cons_append, List.nil_append]
  simp_all

/-! ## Document-level substitution lemmas -/

theorem subAll_single (repl : List Char) (A u v tail : List Char)
    (hA : ∀ i, i < A.length →
      matchAt ((A ++ (m1 ++ (u ++ (m2 ++ (v ++ (m3 ++ tail)))))).drop i) = none)
    (hu : ∀ i, i < u.length →
      m2.isPrefixOf ((u ++ (m2 ++ (v ++ (m3 ++ tail)))).drop i) = false)
    (hv : ∀ i, i < v.length → m3.isPrefixOf ((v ++ (m3 ++ tail)).drop i) = false)
    (htail : ∀ i, i < tail.length → matchAt (tail.drop i) = none) :
    subAll repl (A ++ (m1 ++ (u ++ (m2 ++ (v ++ (m3 ++ tail)))))) = A ++ repl ++ tail := by
  have hm := matchAt_pos u v tail hu hv
  have hscan := scanFirst_pos matchAt_sound A hA hm
  unfold subAll
  rw [replaceAll_some matchAt_sound hscan,
    replaceAll_none (scanFirst_none htail)]

theorem dateSubAll_single (repl : List Char) (A : List Char)
    (d1 d2 d3 d4 d5 d6 d7 d8 : Char) (C : List Char)
    (hd : (d1.isDigit && d2.isDigit && d3.isDigit && d4.isDigit &&
          d5.isDigit && d6.isDigit && d7.isDigit && d8.isDigit) = true)
    (hA : ∀ i, i < A.length →
      dateMatchAt ((A ++ (dateLabel ++ ([d1, d2, d3, d4, '-', d5, d6, '-', d7, d8] ++ C))).drop i) = none)
    (hC : ∀ i, i < C.length → dateMatchAt (C.drop i) = none) :
    dateSubAll repl (A ++ (dateLabel ++ ([d1, d2, d3, d4, '-', d5, d6, '-', d7, d8] ++ C))) =
      A ++ repl ++ C := by
  have hm := dateMatchAt_pos d1 d2 d3 d4 d5 d6 d7 d8 C hd
  have hscan := scanFirst_pos dateMatchAt_sound A hA hm
  unfold dateSubAll
  rw [replaceAll_some dateMatchAt_sound hscan,
    replaceAll_none (scanFirst_none hC)]

theorem subAll_no_match {repl content : List Char}
    (h : ∀ i, i < content.length → matchAt (content.drop i) = none) :
    subAll repl content = content :=
  replaceAll_none (scanFirst_none h)

theorem dateSubAll_no_match {repl content : List Char}
    (h : ∀ i, i < content.length → dateMatchAt (content.drop i) = none) :
    dateSubAll repl content = content :=
  replaceAll_none (scanFirst_none h)

/-! ## Claim C4 -/

/-- C4 (counterexample): the claim states that when the data-block pattern
finds no match, `update_html_file` leaves the document unchanged.  On the
document `数据更新时间: 2024-01-01` the pattern indeed finds no match, yet the
document is changed (its date stamp is rewritten by the separate date-stamp
substitution), so the claim as stated is false. -/
theorem c4_counterexample :
    (∀ i, i < ("数据更新时间: 2024-01-01".data).length →
      matchAt (("数据更新时间: 2024-01-01".data).drop i) = none) ∧
    update_html_file "数据更新时间: 2024-01-01".data [] "2024-06-01" ≠
      "数据更新时间: 2024-01-01".data := by
  constructor
  · decide
  · decide

/-- C4 (amended): if the data-block pattern finds no match in the document,
`update_html_file` completes without error (it is total) and the block
substitution leaves the document unchanged — a silent no-op — so the whole
update equals the independent date-stamp substitution alone; in particular a
document also free of the date-stamp pattern is returned byte-identical. -/
theorem c4_no_match_is_no_op (content : List Char) (ds : DataSet) (d : String)
    (h : ∀ i, i < content.length → matchAt (content.drop i) = none) :
    subAll (buildSmmDataJs ds d).data content = content ∧
    update_html_file content ds d = dateSubAll (dateLabel ++ d.data) content ∧
    ((∀ i, i < content.length → dateMatchAt (content.drop i) = none) →
      update_html_file content ds d = content) := by
  have h1 : subAll (buildSmmDataJs ds d).data content = content := subAll_no_match h
  refine ⟨h1, ?_, ?_⟩
  · rw [update_html_file, h1]
  · intro hd
    rw [update_html_file, h1, dateSubAll_no_match hd]

/-- C4 (witness): the amended statement at a concrete pattern-free document. -/
theorem c4_witness :
    subAll (buildSmmDataJs [] "2024-06-01").data "hello world".data = "hello world".data ∧
    update_html_file "hello world".data [] "2024-06-01" =
      dateSubAll (dateLabel ++ "2024-06-01".data) "hello world".data ∧
    ((∀ i, i < ("hello world".data).length →
        dateMatchAt (("hello world".data).drop i) = none) →
      update_html_file "hello world".data [] "2024-06-01" = "hello world".data) :=
  c4_no_match_is_no_op "hello world".data [] "2024-06-01" (by decide)

/-! ## Claim C3 -/

/-- C3: for every document containing exactly one well-formed data block
`m1 ++ u ++ m2 ++ v ++ m3` and exactly one date-stamp line
`数据更新时间: 2024-01-01` (in either order: block before stamp, or stamp
before block; the hypotheses pin the unique match site of each pattern),
running `update_html_file` with update date `2024-06-01` yields the document
with the block replaced by the newly formatted DataSet, the date stamp
reading `数据更新时间: 2024-06-01`, and all other content (`A`, `B`, `C`)
byte-identical. -/
theorem c3_document_update (ds : DataSet) :
    (∀ (A u v B C : List Char),
      (∀ i, i < A.length →
        matchAt ((A ++ (m1 ++ (u ++ (m2 ++ (v ++ (m3 ++
          (B ++ (dateLabel ++ ("2024-01-01".data ++ C))))))))).drop i) = none) →
      (∀ i, i < u.length →
        m2.isPrefixOf ((u ++ (m2 ++ (v ++ (m3 ++
          (B ++ (dateLabel ++ ("2024-01-01".data ++ C))))))).drop i) = false) →
      (∀ i, i < v.length →
        m3.isPrefixOf ((v ++ (m3 ++ (B ++ (dateLabel ++
          ("2024-01-01".data ++ C))))).drop i) = false) →
      (∀ i, i < (B ++ (dateLabel ++ ("2024-01-01".data ++ C))).length →
        matchAt ((B ++ (dateLabel ++ ("2024-01-01".data ++ C))).drop i) = none) →
      (∀ i, i < (A ++ ((buildSmmDataJs ds "2024-06-01").data ++ B)).length →
        dateMatchAt ((A ++ ((buildSmmDataJs ds "2024-06-01").data ++
          (B ++ (dateLabel ++ ("2024-01-01".data ++ C))))).drop i) = none) →
      (∀ i, i < C.length → dateMatchAt (C.drop i) = none) →
      update_html_file
        (A ++ (m1 ++ (u ++ (m2 ++ (v ++ (m3 ++
          (B ++ (dateLabel ++ ("2024-01-01".data ++ C))))))))) ds "2024-06-01" =
        A ++ ((buildSmmDataJs ds "2024-06-01").data ++
          (B ++ (dateLabel ++ ("2024-06-01".data ++ C))))) ∧
    (∀ (A u v B C : List Char),
      (∀ i, i < (A ++ (dateLabel ++ ("2024-01-01".data ++ B))).length →
        matchAt (((A ++ (dateLabel ++ ("2024-01-01".data ++ B))) ++
          (m1 ++ (u ++ (m2 ++ (v ++ (m3 ++ C)))))).drop i) = none) →
      (∀ i, i < u.length →
        m2.isPrefixOf ((u ++ (m2 ++ (v ++ (m3 ++ C)))).drop i) = false) →
      (∀ i, i < v.length → m3.isPrefixOf ((v ++ (m3 ++ C)).drop i) = false) →
      (∀ i, i < C.length → matchAt (C.drop i) = none) →
      (∀ i, i < A.length →
        dateMatchAt ((A ++ (dateLabel ++ ("2024-01-01".data ++
          (B ++ ((buildSmmDataJs ds "2024-06-01").data ++ C))))).drop i) = none) →
      (∀ i, i < (B ++ ((buildSmmDataJs ds "2024-06-01").data ++ C)).length →
        dateMatchAt ((B ++ ((buildSmmDataJs ds "2024-06-01").data ++ C)).drop i) = none) →
      update_html_file
        ((A ++ (dateLabel ++ ("2024-01-01".data ++ B))) ++
          (m1 ++ (u ++ (m2 ++ (v ++ (m3 ++ C)))))) ds "2024-06-01" =
        A ++ (dateLabel ++ ("2024-06-01".data ++
          (B ++ ((buildSmmDataJs ds "2024-06-01").data ++ C))))) := by
  have hold : "2024-01-01".data = ['2', '0', '2', '4', '-', '0', '1', '-', '0', '1'] := rfl
  constructor
  · intro A u v B C hA hu hv htail hdate hdC
    rw [update_html_file]
    rw [subAll_single (buildSmmDataJs ds "2024-06-01").data A u v
      (B ++ (dateLabel ++ ("2024-01-01".data ++ C))) hA hu hv htail]
    have hshape : A ++ (buildSmmDataJs ds "2024-06-01").data ++
        (B ++ (dateLabel ++ ("2024-01-01".data ++ C))) =
        (A ++ (buildSmmDataJs ds "2024-06-01").data ++ B) ++
          (dateLabel ++ (['2', '0', '2', '4', '-', '0', '1', '-', '0', '1'] ++ C)) := by
      rw [hold]
      simp [List.append_assoc]
    rw [hshape]
    rw [dateSubAll_single (dateLabel ++ "2024-06-01".data)
      (A ++ (buildSmmDataJs ds "2024-06-01").data ++ B)
      '2' '0' '2' '4' '0' '1' '0' '1' C (by decide)
      (fun i hi => by
        have hi2 : i < (A ++ ((buildSmmDataJs ds "2024-06-01").data ++ B)).length := by
          simpa [List.append_assoc] using hi
        have := hdate i hi2
        rw [hold] at this
        simpa [List.append_assoc] using this)
      hdC]
    simp [List.append_assoc]
  · intro A u v B C hA hu hv hC hdA hdC
    rw [update_html_file]
    rw [subAll_single (buildSmmDataJs ds "2024-06-01").data
      (A ++ (dateLabel ++ ("2024-01-01".data ++ B))) u v C hA hu hv hC]
    have hshape : (A ++ (dateLabel ++ ("2024-01-01".data ++ B))) ++
        (buildSmmDataJs ds "2024-06-01").data ++ C =
        A ++ (dateLabel ++ (['2', '0', '2', '4', '-', '0', '1', '-', '0', '1'] ++
          (B ++ ((buildSmmDataJs ds "2024-06-01").data ++ C)))) := by
      rw [hold]
      simp [List.append_assoc]
    rw [hshape]
    rw [dateSubAll_single (dateLabel ++ "2024-06-01".data) A
      '2' '0' '2' '4' '0' '1' '0' '1'
      (B ++ ((buildSmmDataJs ds "2024-06-01").data ++ C)) (by decide)
      (fun i hi => by
        have := hdA i hi
        rw [hold] at this
        simpa [List.append_assoc] using this)
      hdC]
    simp [List.append_assoc]

set_option maxRecDepth 100000 in
/-- C3 (witness): the document-update statement at two concrete documents
with a single well-formed block and the date-stamp line, one with the stamp
after the block and one with the stamp before it. -/
theorem c3_witness :
    update_html_file
      ("X ".data ++ (m1 ++ (" ".data ++ (m2 ++ ("a".data ++ (m3 ++
        ("\nY ".data ++ (dateLabel ++ ("2024-01-01".data ++ " Z".data)))))))))
      [] "2024-06-01" =
      "X ".data ++ ((buildSmmDataJs [] "2024-06-01").data ++
        ("\nY ".data ++ (dateLabel ++ ("2024-06-01".data ++ " Z".data)))) ∧
    update_html_file
      (("X ".data ++ (dateLabel ++ ("2024-01-01".data ++ "\nY ".data))) ++
        (m1 ++ (" ".data ++ (m2 ++ ("a".data ++ (m3 ++ " Z".data))))))
      [] "2024-06-01" =
      "X ".data ++ (dateLabel ++ ("2024-06-01".data ++
        ("\nY ".data ++ ((buildSmmDataJs [] "2024-06-01").data ++ " Z".data)))) :=
  ⟨(c3_document_update []).1 "X ".data " ".data "a".data "\nY ".data " Z".data
      (by decide) (by decide) (by decide) (by decide) (by decide) (by decide),
   (c3_document_update []).2 "X ".data " ".data "a".data "\nY ".data " Z".data
      (by decide) (by decide) (by decide) (by decide) (by decide) (by decide)⟩

/-! ## Claim C2 -/

set_option maxRecDepth 40000 in
/-- C2 (counterexample): the claim states that on a document where the
data-block pattern occurs twice, `update_html_file` replaces only the first
occurrence and leaves the second unchanged.  On the concrete two-block
document below, the output differs from that prediction (the string on the
right is the document with only the first occurrence replaced and the second
left intact): `re.sub` with the default `count=0` replaces both. -/
theorem c2_counterexample :
    update_html_file
      ("X// SMM真实数据 a const smmData = \x7b b\n        \x7d; mid // SMM真实数据 c const smmData = \x7b d\n        \x7d; end".data)
      [] "2024-06-01" ≠
    "X".data ++ (buildSmmDataJs [] "2024-06-01").data ++
      " mid // SMM真实数据 c const smmData = \x7b d\n        \x7d; end".data := by
  decide

/-- The block substitution replaces every block of a well-formed multi-block
document, keeping every gap text. -/
theorem subAll_blocks (repl : List Char) : ∀ (A : List Char)
    (bs : List (List Char × List Char × List Char)),
    wellFormedBlocks A bs = true →
    subAll repl (docOf A bs) = replacedOf repl A bs
  | A, [], h => by
    rw [docOf, replacedOf]
    rw [wellFormedBlocks] at h
    exact subAll_no_match (of_decide_eq_true h)
  | A, (u, v, B) :: rest, h => by
    rw [wellFormedBlocks] at h
    rw [Bool.and_eq_true, Bool.and_eq_true, Bool.and_eq_true] at h
    obtain ⟨⟨⟨h1, h2⟩, h3⟩, h4⟩ := h
    rw [docOf, replacedOf]
    have hm := matchAt_pos u v (docOf B rest) (of_decide_eq_true h2) (of_decide_eq_true h3)
    have hscan := scanFirst_pos matchAt_sound A (of_decide_eq_true h1) hm
    rw [show subAll repl (A ++ (m1 ++ (u ++ (m2 ++ (v ++ (m3 ++ docOf B rest)))))) =
      replaceAll matchAt repl (A ++ (m1 ++ (u ++ (m2 ++ (v ++ (m3 ++ docOf B rest))))))
      from rfl]
    rw [replaceAll_some matchAt_sound hscan]
    rw [show replaceAll matchAt repl (docOf B rest) = subAll repl (docOf B rest) from rfl]
    rw [subAll_blocks repl B rest h4]

/-- C2 (amended): on every document in which the data-block pattern occurs
more than once — a leading text and any sequence of two or more well-formed
blocks with their gap texts, `wellFormedBlocks` pinning the pattern's matches
to exactly the blocks — the block substitution of `update_html_file` replaces
*every* occurrence with the newly synthesized block, not only the first; and
when the resulting document is free of the date-stamp pattern it is exactly
the full output of `update_html_file`. -/
theorem c2_replaces_every_occurrence (ds : DataSet) (d : String)
    (A : List Char) (bs : List (List Char × List Char × List Char))
    (_hmany : 2 ≤ bs.length)
    (hwf : wellFormedBlocks A bs = true) :
    subAll (buildSmmDataJs ds d).data (docOf A bs) =
      replacedOf (buildSmmDataJs ds d).data A bs ∧
    ((∀ i, i < (replacedOf (buildSmmDataJs ds d).data A bs).length →
        dateMatchAt ((replacedOf (buildSmmDataJs ds d).data A bs).drop i) = none) →
      update_html_file (docOf A bs) ds d =
        replacedOf (buildSmmDataJs ds d).data A bs) := by
  have h1 := subAll_blocks (buildSmmDataJs ds d).data A bs hwf
  refine ⟨h1, fun hd => ?_⟩
  rw [update_html_file, h1, dateSubAll_no_match hd]

set_option maxRecDepth 100000 in
/-- C2 (amended, witness): the replacement of every occurrence at a concrete
three-block document. -/
theorem c2_witness :
    subAll (buildSmmDataJs [] "2024-06-01").data
      (docOf "X".data
        [(" a ".data, " b".data, " mid ".data),
         (" c ".data, " d".data, " mid2 ".data),
         (" e ".data, " f".data, " end".data)]) =
      replacedOf (buildSmmDataJs [] "2024-06-01").data "X".data
        [(" a ".data, " b".data, " mid ".data),
         (" c ".data, " d".data, " mid2 ".data),
         (" e ".data, " f".data, " end".data)] ∧
    ((∀ i, i < (replacedOf (buildSmmDataJs [] "2024-06-01").data "X".data
        [(" a ".data, " b".data, " mid ".data),
         (" c ".data, " d".data, " mid2 ".data),
         (" e ".data, " f".data, " end".data)]).length →
      dateMatchAt ((replacedOf (buildSmmDataJs [] "2024-06-01").data "X".data
        [(" a ".data, " b".data, " mid ".data),
         (" c ".data, " d".data, " mid2 ".data),
         (" e ".data, " f".data, " end".data)]).drop i) = none) →
      update_html_file (docOf "X".data
        [(" a ".data, " b".data, " mid ".data),
         (" c ".data, " d".data, " mid2 ".data),
         (" e ".data, " f".data, " end".data)]) [] "2024-06-01" =
        replacedOf (buildSmmDataJs [] "2024-06-01").data "X".data
          [(" a ".data, " b".data, " mid ".data),
           (" c ".data, " d".data, " mid2 ".data),
           (" e ".data, " f".data, " end".data)]) :=
  c2_replaces_every_occurrence [] "2024-06-01" "X".data
    [(" a ".data, " b".data, " mid ".data),
     (" c ".data, " d".data, " mid2 ".data),
     (" e ".data, " f".data, " end".data)]
    (by decide) (by decide)

/-! ## Claim C7 -/

/-- C7: every transport-level failure — an HTTP status error, a URL
(connection / name-resolution) error, or any other exception raised while
requesting or parsing the response — makes `fetch_smm_data` return the empty
series; being a total function of the request outcome, it propagates no
exception past the fetcher boundary. -/
theorem c7_transport_failures_yield_empty :
    ∀ (code : Nat) (reason msg : String),
      fetch_smm_data (.httpError code) = [] ∧
      fetch_smm_data (.urlError reason) = [] ∧
      fetch_smm_data (.exception msg) = [] :=
  fun _ _ _ => ⟨rfl, rfl, rfl⟩

/-! ## Claim C10 -/

/-- C10: a successful (`status = "ok"`) response whose rows contain one good
record and one record with a non-numeric `avg_price` string makes the whole
fetch return the empty series: the `float()` conversion error escapes the
per-record loop (`processRows` aborts with an error), lands in the catch-all
handler, and discards every record instead of skipping the offending one. -/
theorem c10_bad_value_discards_whole_response :
    processRows [{ date := "2025-01-01", avg_price := some (.num 2),
                   low_price := none, high_price := none },
                 { date := "2025-01-02", avg_price := some (.str "abc"),
                   low_price := none, high_price := none }] =
      .error "could not convert string to float" ∧
    fetch_smm_data (.response (some "ok")
      [{ date := "2025-01-01", avg_price := some (.num 2),
         low_price := none, high_price := none },
       { date := "2025-01-02", avg_price := some (.str "abc"),
         low_price := none, high_price := none }]) = [] := by
  constructor
  · with_unfolding_all rfl
  · with_unfolding_all rfl

/-! ## Claim C5 -/

/-- C5: per-record normalization in a successfully processed response: a
record with an average price uses it as the point's price; a record without
one but with both a low and a high price gets price `(low + high) / 2`
exactly; a record with neither an average nor both low/high prices, or with
no resolvable date, contributes nothing; and a record that contributes
nothing is excluded from the series built by the row loop. -/
theorem c5_record_normalization (row : Row) (rest : List Row) (q l h : ℚ) :
    (row.date ≠ "" → row.avg_price = some (.num q) →
      processRow row = .ok (some { date := row.date, price := q })) ∧
    (row.date ≠ "" → row.avg_price = none → row.low_price = some (.num l) →
      row.high_price = some (.num h) →
      processRow row = .ok (some { date := row.date, price := (l + h) / 2 })) ∧
    (row.avg_price = none → (row.low_price = none ∨ row.high_price = none) →
      processRow row = .ok none) ∧
    (row.date = "" → row.avg_price = some (.num q) → processRow row = .ok none) ∧
    (row.date = "" → row.avg_price = none → row.low_price = some (.num l) →
      row.high_price = some (.num h) → processRow row = .ok none) ∧
    (processRow row = .ok none → processRows (row :: rest) = processRows rest) := by
  refine ⟨?_, ?_, ?_, ?_, ?_, ?_⟩
  · intro hd hav
    simp [processRow, hav, hd, pyFloat]
  · intro hd hav hlo hhi
    simp [processRow, hav, hlo, hhi, hd, pyFloat]
  · rintro hav (hlo | hhi)
    · simp [processRow, hav, hlo]
    · cases hlo : row.low_price <;> simp [processRow, hav, hlo, hhi]
  · intro hd hav
    simp [processRow, hav, hd]
  · intro hd hav hlo hhi
    simp [processRow, hav, hlo, hhi, hd, pyFloat]
  · intro h
    simp [processRows, h]

/-- C5 (witness): the four record shapes at concrete inputs, and the exclusion
of a contributing-nothing record from the series. -/
theorem c5_witness :
    processRow { date := "2025-01-01", avg_price := some (.num 10.5),
                 low_price := some (.num 1), high_price := none } =
      .ok (some { date := "2025-01-01", price := 10.5 }) ∧
    processRow { date := "2025-01-02", avg_price := none,
                 low_price := some (.num 10), high_price := some (.num 11) } =
      .ok (some { date := "2025-01-02", price := (10 + 11) / 2 }) ∧
    processRow { date := "2025-01-03", avg_price := none,
                 low_price := some (.num 10), high_price := none } = .ok none ∧
    processRow { date := "", avg_price := some (.num 10),
                 low_price := none, high_price := none } = .ok none ∧
    processRows [{ date := "", avg_price := some (.num 10),
                   low_price := none, high_price := none }] = processRows [] :=
  ⟨(c5_record_normalization _ [] 10.5 0 0).1 (by decide) rfl,
   (c5_record_normalization _ [] 0 10 11).2.1 (by decide) rfl rfl rfl,
   (c5_record_normalization _ [] 0 0 0).2.2.1 rfl (Or.inr rfl),
   (c5_record_normalization _ [] 10 0 0).2.2.2.1 rfl rfl,
   (c5_record_normalization _ [] 10 0 0).2.2.2.2.2
     ((c5_record_normalization _ [] 10 0 0).2.2.2.1 rfl rfl)⟩

/-! ## Claim C8: order facts and insertion-sort sortedness -/

theorem charListLt_irrefl : ∀ (x : List Char), charListLt x x = false
  | [] => rfl
  | a :: as => by simp [charListLt, charListLt_irrefl as]

theorem charListLt_trans : ∀ (x y z : List Char),
    charListLt x y = true → charListLt y z = true → charListLt x z = true := by
  intro x
  induction x with
  | nil =>
    intro y z h1 h2
    cases y with
    | nil => simp [charListLt] at h1
    | cons b bs =>
      cases z with
      | nil => simp [charListLt] at h2
      | cons c cs => simp [charListLt]
  | cons a as ih =>
    intro y z h1 h2
    cases y with
    | nil => simp [charListLt] at h1
    | cons b bs =>
      cases z with
      | nil => simp [charListLt] at h2
      | cons c cs =>
        simp only [charListLt] at h1 h2 ⊢
        by_cases hab : a = b
        · subst hab
          rw [if_pos rfl] at h1
          by_cases hac : a = c
          · subst hac
            rw [if_pos rfl] at h2 ⊢
            exact ih bs cs h1 h2
          · rw [if_neg hac] at h2 ⊢
            exact h2
        · rw [if_neg hab] at h1
          have hab' : a < b := of_decide_eq_true h1
          by_cases hbc : b = c
          · subst hbc
            rw [if_neg hab]
            exact h1
          · rw [if_neg hbc] at h2
            have hbc' : b < c := of_decide_eq_true h2
            have hac' : a < c := lt_trans hab' hbc'
            rw [if_neg (ne_of_lt hac')]
            exact decide_eq_true hac'

theorem charListLt_asymm {x y : List Char} (h : charListLt x y = true) :
    charListLt y x = false := by
  by_contra hc
  have h' : charListLt y x = true := by
    cases hyx : charListLt y x with
    | false => exact absurd hyx hc
    | true => rfl
  have := charListLt_trans x y x h h'
  rw [charListLt_irrefl] at this
  cases this

theorem charListLt_connex : ∀ (x y : List Char),
    charListLt x y = false → charListLt y x = false → x = y := by
  intro x
  induction x with
  | nil =>
    intro y h1 _
    cases y with
    | nil => rfl
    | cons b bs => simp [charListLt] at h1
  | cons a as ih =>
    intro y h1 h2
    cases y with
    | nil => simp [charListLt] at h2
    | cons b bs =>
      simp only [charListLt] at h1 h2
      by_cases hab : a = b
      · subst hab
        rw [if_pos rfl] at h1 h2
        rw [ih bs h1 h2]
      · rw [if_neg hab] at h1
        rw [if_neg (fun hba => hab hba.symm)] at h2
        have nab : ¬ a < b := of_decide_eq_false h1
        have nba : ¬ b < a := of_decide_eq_false h2
        exact absurd (le_antisymm (not_lt.mp nba) (not_lt.mp nab)) hab

theorem charListLt_le_trans {x y z : List Char}
    (h1 : charListLt y x = false) (h2 : charListLt z y = false) :
    charListLt z x = false := by
  cases hzx : charListLt z x with
  | false => rfl
  | true =>
    exfalso
    by_cases hxy : charListLt x y = true
    · have := charListLt_trans z x y hzx hxy
      rw [h2] at this
      cases this
    · have hf : charListLt x y = false := by
        cases hc : charListLt x y with
        | false => rfl
        | true => exact absurd hc hxy
      have := charListLt_connex x y hf h1
      subst this
      rw [h2] at hzx
      cases hzx

theorem mem_insertByDate {x z : Point} : ∀ {l : List Point},
    z ∈ insertByDate x l → z = x ∨ z ∈ l
  | [], h => by simpa [insertByDate] using h
  | y :: ys, h => by
    rw [insertByDate] at h
    split at h
    · rcases List.mem_cons.mp h with h' | h'
      · exact Or.inr (List.mem_cons.mpr (Or.inl h'))
      · rcases mem_insertByDate h' with h'' | h''
        · exact Or.inl h''
        · exact Or.inr (List.mem_cons.mpr (Or.inr h''))
    · rcases List.mem_cons.mp h with h' | h'
      · exact Or.inl h'
      · exact Or.inr h'

theorem insertByDate_pairwise {x : Point} : ∀ {l : List Point},
    l.Pairwise (fun a b => dateLtB b a = false) →
    (insertByDate x l).Pairwise (fun a b => dateLtB b a = false)
  | [], _ => by simp [insertByDate]
  | y :: ys, h => by
    rw [List.pairwise_cons] at h
    rw [insertByDate]
    split
    · rename_i hyx
      rw [List.pairwise_cons]
      constructor
      · intro z hz
        rcases mem_insertByDate hz with rfl | hz'
        · exact charListLt_asymm hyx
        · exact h.1 z hz'
      · exact insertByDate_pairwise h.2
    · rename_i hyx
      have hyx' : dateLtB y x = false := by
        cases hc : dateLtB y x with
        | false => rfl
        | true => exact absurd hc hyx
      rw [List.pairwise_cons]
      constructor
      · intro z hz
        rcases List.mem_cons.mp hz with rfl | hz'
        · exact hyx'
        · exact charListLt_le_trans hyx' (h.1 z hz')
      · rw [List.pairwise_cons]
        exact h

theorem sortByDate_pairwise : ∀ (l : List Point),
    (sortByDate l).Pairwise (fun a b => dateLtB b a = false)
  | [] => List.Pairwise.nil
  | x :: xs => by
    rw [sortByDate]
    exact insertByDate_pairwise (sortByDate_pairwise xs)

/-- C8: whatever the ordering of the rows in the provider response, the series
returned by `fetch_smm_data` is sorted non-decreasing by its date string:
for consecutive points `a` before `b`, `b.date` is not lexicographically
smaller than `a.date` in code-point (Python string) order, i.e.
`a.date ≤ b.date`. -/
theorem c8_series_sorted_by_date (res : NetResult) :
    (fetch_smm_data res).Pairwise (fun a b => dateLtB b a = false) := by
  cases res with
  | httpError code => exact List.Pairwise.nil
  | urlError reason => exact List.Pairwise.nil
  | exception msg => exact List.Pairwise.nil
  | response status rows =>
    rw [fetch_smm_data]
    split
    · cases hp : processRows rows with
      | error e => exact List.Pairwise.nil
      | ok result => exact sortByDate_pairwise result
    · exact List.Pairwise.nil

/-! ## Claims C1 and C6: the DataSet after the fetch pass -/

theorem fetchPassOn_lookup_not_mem (f : String → String → String → List Point)
    (s e c : String) : ∀ (ps : List (String × String)) (k : String),
    k ∉ ps.map Prod.fst → (fetchPassOn ps f s e c).lookup k = none
  | [], k, _ => rfl
  | (k', pid') :: t, k, hmem => by
    have hk : k ≠ k' := fun he => hmem (by simp [he])
    have ht : k ∉ t.map Prod.fst := fun he => hmem (by simp [he])
    rw [fetchPassOn, List.filterMap_cons]
    dsimp only
    by_cases hdd : (if k' ∈ costKeys then f pid' c e else f pid' s e) = []
    · rw [if_pos hdd]
      exact fetchPassOn_lookup_not_mem f s e c t k ht
    · rw [if_neg hdd]
      simp only [List.lookup, beq_eq_false_iff_ne.mpr hk]
      exact fetchPassOn_lookup_not_mem f s e c t k ht

theorem fetchPassOn_lookup (f : String → String → String → List Point)
    (s e c : String) : ∀ (ps : List (String × String)),
    (ps.map Prod.fst).Nodup → ∀ (k pid : String), (k, pid) ∈ ps →
    (fetchPassOn ps f s e c).lookup k =
      (if (if k ∈ costKeys then f pid c e else f pid s e) = [] then none
       else some (if k ∈ costKeys then f pid c e else f pid s e))
  | [], _, k, pid, hmem => absurd hmem (List.not_mem_nil _)
  | (k', pid') :: t, hnodup, k, pid, hmem => by
    rw [List.map_cons, List.nodup_cons] at hnodup
    rcases List.mem_cons.mp hmem with he | ht
    · injection he with h1 h2
      subst h1
      subst h2
      rw [fetchPassOn, List.filterMap_cons]
      dsimp only
      by_cases hdd : (if k ∈ costKeys then f pid c e else f pid s e) = []
      · rw [if_pos hdd, if_pos hdd]
        exact fetchPassOn_lookup_not_mem f s e c t k hnodup.1
      · rw [if_neg hdd, if_neg hdd]
        simp [List.lookup]
    · have hk : k ≠ k' := by
        intro he
        subst he
        exact hnodup.1 (List.mem_map.mpr ⟨(k, pid), ht, rfl⟩)
      rw [fetchPassOn, List.filterMap_cons]
      dsimp only
      by_cases hdd : (if k' ∈ costKeys then f pid' c e else f pid' s e) = []
      · rw [if_pos hdd]
        exact fetchPassOn_lookup f s e c t hnodup.2 k pid ht
      · rw [if_neg hdd]
        simp only [List.lookup, beq_eq_false_iff_ne.mpr hk]
        exact fetchPassOn_lookup f s e c t hnodup.2 k pid ht

/-- C1 (counterexample): the claim states that after the fetch pass every
registry key is present in the DataSet, mapped to the empty series when its
fetch failed.  With every fetch failing (here: an HTTP 404, for which
`fetch_smm_data` returns the empty series), `silver` is a registry key yet the
DataSet has no entry for it at all — `main` only stores a key when its data is
non-empty (`if data: smm_data[key] = data`). -/
theorem c1_counterexample :
    ("silver", "202512220022") ∈ SMM_PRODUCTS ∧
    fetch_smm_data (.httpError 404) = [] ∧
    (fetchPass (fun _ _ _ => fetch_smm_data (.httpError 404))
      "2024-01-01" "2024-02-15" "2023-11-17").lookup "silver" = none :=
  ⟨by decide, rfl, by decide⟩

/-- C1 (amended): after the fetch pass, a registry key is present in the
DataSet exactly when its fetch returned a non-empty series, and then it maps
to that series; a product whose fetch failed or yielded no usable records is
absent from the DataSet (not present as an empty series). -/
theorem c1_dataset_entries (f : String → String → String → List Point)
    (s e c : String) (k pid : String) (hmem : (k, pid) ∈ SMM_PRODUCTS) :
    (fetchPass f s e c).lookup k =
      (if (if k ∈ costKeys then f pid c e else f pid s e) = [] then none
       else some (if k ∈ costKeys then f pid c e else f pid s e)) :=
  fetchPassOn_lookup f s e c SMM_PRODUCTS (by decide) k pid hmem

/-- C1 (witness): the amended statement at two concrete fetch functions — one
failing everywhere (key absent) and one returning a one-point series (key
present with that series). -/
theorem c1_witness :
    (fetchPass (fun _ _ _ => []) "2024-01-01" "2024-02-15" "2023-11-17").lookup "silver" =
      none ∧
    (fetchPass (fun _ _ _ => [{ date := "2024-02-14", price := (3 : ℚ) }])
        "2024-01-01" "2024-02-15" "2023-11-17").lookup "wafer" =
      some [{ date := "2024-02-14", price := (3 : ℚ) }] :=
  ⟨c1_dataset_entries (fun _ _ _ => []) "2024-01-01" "2024-02-15" "2023-11-17"
      "silver" "202512220022" (by decide),
   c1_dataset_entries (fun _ _ _ => [{ date := "2024-02-14", price := (3 : ℚ) }])
      "2024-01-01" "2024-02-15" "2023-11-17" "wafer" "202303220001" (by decide)⟩

/-- C6: if any of the required keys `silver`, `wafer`, `silicon`, `cell` is
missing from the DataSet or maps to an empty series after the fetch pass, the
orchestrator's tail prints the missing keys and exits with status 1, and the
document updater is never invoked. -/
theorem c6_missing_required_key_exits (ds : DataSet) (content : List Char)
    (d k : String) (hk : k ∈ required_keys)
    (hmiss : ds.lookup k = none ∨ ds.lookup k = some []) :
    k ∈ missingKeys ds ∧
    mainAfterFetch ds content d = .exited 1 (missingKeys ds) ∧
    (∀ newContent, mainAfterFetch ds content d ≠ .updated newContent) := by
  have hmem : k ∈ missingKeys ds := by
    rw [missingKeys, List.mem_filter]
    refine ⟨hk, ?_⟩
    rcases hmiss with h | h
    · rw [h]
    · rw [h]
      rfl
  have hne : missingKeys ds ≠ [] := List.ne_nil_of_mem hmem
  refine ⟨hmem, ?_, ?_⟩
  · rw [mainAfterFetch, if_pos hne]
  · intro newContent
    rw [mainAfterFetch, if_pos hne]
    intro h
    cases h

/-- C6 (witness): the spec scenario — a DataSet with `silver`, `wafer`,
`silicon` present and non-empty but `cell` absent — exits with status 1 and
never updates the document. -/
theorem c6_witness :
    "cell" ∈ missingKeys [("silver", [{ date := "2024-01-01", price := (1 : ℚ) }]),
      ("wafer", [{ date := "2024-01-01", price := (2 : ℚ) }]),
      ("silicon", [{ date := "2024-01-01", price := (3 : ℚ) }])] ∧
    mainAfterFetch [("silver", [{ date := "2024-01-01", price := (1 : ℚ) }]),
      ("wafer", [{ date := "2024-01-01", price := (2 : ℚ) }]),
      ("silicon", [{ date := "2024-01-01", price := (3 : ℚ) }])] "doc".data "2024-06-01" =
      .exited 1 (missingKeys [("silver", [{ date := "2024-01-01", price := (1 : ℚ) }]),
        ("wafer", [{ date := "2024-01-01", price := (2 : ℚ) }]),
        ("silicon", [{ date := "2024-01-01", price := (3 : ℚ) }])]) ∧
    (∀ newContent, mainAfterFetch [("silver", [{ date := "2024-01-01", price := (1 : ℚ) }]),
      ("wafer", [{ date := "2024-01-01", price := (2 : ℚ) }]),
      ("silicon", [{ date := "2024-01-01", price := (3 : ℚ) }])] "doc".data "2024-06-01" ≠
      .updated newContent) :=
  c6_missing_required_key_exits _ "doc".data "2024-06-01" "cell" (by decide) (Or.inl rfl)

/-! ## Claim C9: decimal rendering round-trips -/

theorem digitVal_digitChar : ∀ d, d < 10 → digitVal (digitChar d) = d := by decide

theorem isDigit_digitChar : ∀ d, d < 10 → (digitChar d).isDigit = true := by decide

theorem parseNatList_append_singleton (xs : List Char) (c : Char) :
    parseNatList (xs ++ [c]) = parseNatList xs * 10 + digitVal c := by
  rw [parseNatList, List.foldl_append]
  rfl

theorem natToDecAux_spec : ∀ (fuel n : Nat), n < fuel →
    parseNatList (natToDecAux fuel n) = n ∧
    (∀ ch ∈ natToDecAux fuel n, ch.isDigit = true) ∧
    natToDecAux fuel n ≠ []
  | 0, n, h => absurd h (Nat.not_lt_zero n)
  | fuel + 1, n, h => by
    rw [natToDecAux]
    by_cases h10 : n < 10
    · rw [if_pos h10]
      refine ⟨?_, ?_, by simp⟩
      · rw [show parseNatList [digitChar n] = 0 * 10 + digitVal (digitChar n) from rfl,
          digitVal_digitChar n h10]
        omega
      · intro ch hch
        rw [List.mem_singleton] at hch
        subst hch
        exact isDigit_digitChar n h10
    · rw [if_neg h10]
      have hdiv : n / 10 < fuel := by
        have := Nat.div_lt_self (by omega : 0 < n) (by omega : 1 < 10)
        omega
      obtain ⟨ih1, ih2, _⟩ := natToDecAux_spec fuel (n / 10) hdiv
      refine ⟨?_, ?_, by simp⟩
      · rw [parseNatList_append_singleton, ih1,
          digitVal_digitChar (n % 10) (Nat.mod_lt n (by omega))]
        omega
      · intro ch hch
        rcases List.mem_append.mp hch with hch | hch
        · exact ih2 ch hch
        · rw [List.mem_singleton] at hch
          subst hch
          exact isDigit_digitChar (n % 10) (Nat.mod_lt n (by omega))

theorem natToDec_parse (n : Nat) : parseNatList (natToDec n) = n :=
  (natToDecAux_spec (n + 1) n (Nat.lt_succ_self n)).1

theorem natToDec_digits (n : Nat) : ∀ ch ∈ natToDec n, ch.isDigit = true :=
  (natToDecAux_spec (n + 1) n (Nat.lt_succ_self n)).2.1

theorem natToDec_ne_nil (n : Nat) : natToDec n ≠ [] :=
  (natToDecAux_spec (n + 1) n (Nat.lt_succ_self n)).2.2

theorem natToDecAux_length : ∀ (fuel n k : Nat), n < fuel → n < 10 ^ k → 1 ≤ k →
    (natToDecAux fuel n).length ≤ k
  | 0, n, k, h, _, _ => absurd h (Nat.not_lt_zero n)
  | fuel + 1, n, k, h, hk, hk1 => by
    rw [natToDecAux]
    by_cases h10 : n < 10
    · rw [if_pos h10]
      simpa using hk1
    · rw [if_neg h10]
      have hdiv : n / 10 < fuel := by
        have := Nat.div_lt_self (by omega : 0 < n) (by omega : 1 < 10)
        omega
      have hk2 : 2 ≤ k := by
        by_contra hc
        have hk1' : k = 1 := by omega
        subst hk1'
        simp at hk
        omega
      have hdivk : n / 10 < 10 ^ (k - 1) := by
        rw [Nat.div_lt_iff_lt_mul (by omega : 0 < 10)]
        calc n < 10 ^ k := hk
        _ = 10 ^ (k - 1) * 10 := by
          rw [← pow_succ]
          congr 1
          omega
      have := natToDecAux_length fuel (n / 10) (k - 1) hdiv hdivk (by omega)
      rw [List.length_append]
      simp only [List.length_singleton]
      omega

theorem natToDec_length {n k : Nat} (hk : n < 10 ^ k) (hk1 : 1 ≤ k) :
    (natToDec n).length ≤ k :=
  natToDecAux_length (n + 1) n k (Nat.lt_succ_self n) hk hk1

theorem parseNatList_replicate_zero : ∀ (j : Nat) (ds : List Char),
    parseNatList (List.replicate j '0' ++ ds) = parseNatList ds
  | 0, ds => rfl
  | j + 1, ds => by
    rw [List.replicate_succ, List.cons_append]
    rw [show parseNatList ('0' :: (List.replicate j '0' ++ ds)) =
      (List.replicate j '0' ++ ds).foldl (fun acc c => acc * 10 + digitVal c) 0 from rfl]
    exact parseNatList_replicate_zero j ds

theorem parseNatList_padLeft (e : Nat) (ds : List Char) :
    parseNatList (padLeft e ds) = parseNatList ds :=
  parseNatList_replicate_zero (e - ds.length) ds

theorem padLeft_length (e : Nat) (ds : List Char) :
    (padLeft e ds).length = max e ds.length := by
  rw [padLeft, List.length_append, List.length_replicate]
  omega

theorem padLeft_digits {ds : List Char} (h : ∀ ch ∈ ds, ch.isDigit = true)
    (e : Nat) : ∀ ch ∈ padLeft e ds, ch.isDigit = true := by
  intro ch hch
  rcases List.mem_append.mp hch with hch | hch
  · rw [List.eq_of_mem_replicate hch]
    decide
  · exact h ch hch

theorem padLeft_ne_nil {e : Nat} (he : 1 ≤ e) (ds : List Char) :
    padLeft e ds ≠ [] := by
  intro h
  have := congrArg List.length h
  rw [padLeft_length] at this
  simp at this
  omega

theorem decExp_dvd {d k : Nat} (h : decExp d = some k) : d ∣ 10 ^ k := by
  have := List.find?_some h
  exact Nat.dvd_of_mod_eq_zero (by simpa using this)

theorem isDigit_ne_of {c : Char} (h : c.isDigit = true) :
    c ≠ '.' ∧ c ≠ '-' ∧ c ≠ '\x7d' ∧ c ≠ '"' := by
  refine ⟨?_, ?_, ?_, ?_⟩ <;> intro he <;> subst he <;> exact absurd h (by decide)

theorem splitFirst_singleton (c : Char) : ∀ (a b : List Char), c ∉ a →
    splitFirst [c] (a ++ c :: b) = some (a, b)
  | [], b, _ => by
    rw [List.nil_append, splitFirst]
    have : [c].isPrefixOf (c :: b) = true := by
      simp [List.isPrefixOf]
    rw [this]
    simp
  | a₀ :: a', b, h => by
    have hca : c ≠ a₀ := fun he => h (by simp [he])
    have hca' : c ∉ a' := fun he => h (by simp [he])
    rw [List.cons_append, splitFirst]
    have : [c].isPrefixOf (a₀ :: (a' ++ c :: b)) = false := by
      simp [List.isPrefixOf, hca]
    rw [this]
    simp only [Bool.false_eq_true, if_false]
    rw [splitFirst_singleton c a' b hca']

theorem parseUnsigned_split (I P : List Char) (hI : I ≠ []) (hP : P ≠ [])
    (hdI : ∀ ch ∈ I, ch.isDigit = true) (hdP : ∀ ch ∈ P, ch.isDigit = true) :
    parseUnsigned (I ++ '.' :: P) =
      some ((parseNatList I * 10 ^ P.length + parseNatList P : ℚ) / (10 ^ P.length : ℚ)) := by
  have hdot : '.' ∉ I := fun hin => (isDigit_ne_of (hdI '.' hin)).1 rfl
  rw [parseUnsigned, splitFirst_singleton '.' I P hdot]
  dsimp only
  rw [if_pos ⟨hI, hP, List.all_eq_true.mpr (fun ch hch => hdI ch hch),
    List.all_eq_true.mpr (fun ch hch => hdP ch hch)⟩]

theorem parseDec_showPrice (q : ℚ) (hs : (decExp q.den).isSome) :
    parseDec (showPrice q).data = some q := by
  obtain ⟨k, hk⟩ := Option.isSome_iff_exists.mp hs
  have he1 : 1 ≤ max k 1 := le_max_right k 1
  have hEpos : 0 < 10 ^ max k 1 := pow_pos (by omega) _
  have hdvd : q.den ∣ 10 ^ max k 1 :=
    dvd_trans (decExp_dvd hk) (pow_dvd_pow 10 (le_max_left k 1))
  have hdvd2 : q.den ∣ q.num.natAbs * 10 ^ max k 1 := Dvd.dvd.mul_left hdvd _
  have hmd : q.num.natAbs * 10 ^ max k 1 / q.den * q.den =
      q.num.natAbs * 10 ^ max k 1 := Nat.div_mul_cancel hdvd2
  set e := max k 1 with he
  set E := 10 ^ e with hE
  set m := q.num.natAbs * E / q.den with hm
  have hshow : (showPrice q).data =
      (if q.num < 0 then ['-'] else []) ++
        natToDec (m / E) ++ '.' :: padLeft e (natToDec (m % E)) := by
    unfold showPrice
    rw [hk]
  set I := natToDec (m / E) with hI
  set P := padLeft e (natToDec (m % E)) with hP
  have hIne : I ≠ [] := natToDec_ne_nil _
  have hPne : P ≠ [] := padLeft_ne_nil he1 _
  have hdI : ∀ ch ∈ I, ch.isDigit = true := natToDec_digits _
  have hdP : ∀ ch ∈ P, ch.isDigit = true := padLeft_digits (natToDec_digits _) e
  have hPlen : P.length = e := by
    rw [hP, padLeft_length]
    have : (natToDec (m % E)).length ≤ e :=
      natToDec_length (by rw [hE]; exact Nat.mod_lt _ hEpos) he1
    omega
  have hparse : parseUnsigned (I ++ '.' :: P) =
      some ((parseNatList I * 10 ^ P.length + parseNatList P : ℚ) / (10 ^ P.length : ℚ)) :=
    parseUnsigned_split I P hIne hPne hdI hdP
  have hPval : parseNatList P = m % E := by
    rw [hP, parseNatList_padLeft, natToDec_parse]
  have hIval : parseNatList I = m / E := by
    rw [hI, natToDec_parse]
  have hsplit : m / E * E + m % E = m := by
    rw [Nat.mul_comm]
    exact Nat.div_add_mod m E
  have hnum : ((parseNatList I : ℚ) * 10 ^ P.length + parseNatList P) = (m : ℚ) := by
    rw [hIval, hPval, hPlen]
    have hcast : ((10 : ℚ) ^ e) = ((10 ^ e : ℕ) : ℚ) := by push_cast; ring
    rw [hcast, ← hE]
    exact_mod_cast hsplit
  have habs : ((parseNatList I : ℚ) * 10 ^ P.length + parseNatList P) / (10 ^ P.length : ℚ) =
      (q.num.natAbs : ℚ) / (q.den : ℚ) := by
    rw [hnum, hPlen]
    have hcast : ((10 : ℚ) ^ e) = ((E : ℕ) : ℚ) := by rw [hE]; push_cast; ring
    rw [hcast]
    rw [div_eq_div_iff (by positivity) (by
      exact_mod_cast Nat.pos_iff_ne_zero.mp q.den_pos)]
    exact_mod_cast hmd
  rw [hshow]
  by_cases hneg : q.num < 0
  · rw [if_pos hneg]
    have hfold : ['-'] ++ natToDec (m / E) ++ '.' :: padLeft e (natToDec (m % E)) =
        '-' :: (I ++ '.' :: P) := by
      rw [hI, hP]
      simp [List.append_assoc]
    rw [hfold]
    rw [show parseDec ('-' :: (I ++ '.' :: P)) =
      (parseUnsigned (I ++ '.' :: P)).map (fun x => -x) from rfl]
    rw [hparse, habs]
    have h1 : ((q.num.natAbs : ℚ)) = -(q.num : ℚ) := by
      rw [Int.cast_natAbs]
      exact_mod_cast abs_of_neg hneg
    rw [show Option.map (fun x : ℚ => -x) (some ((q.num.natAbs : ℚ) / (q.den : ℚ))) =
      some (-((q.num.natAbs : ℚ) / (q.den : ℚ))) from rfl]
    rw [h1, neg_div, neg_neg, Rat.num_div_den]
  · rw [if_neg hneg]
    have hfold : ([] : List Char) ++ natToDec (m / E) ++ '.' :: padLeft e (natToDec (m % E)) =
        I ++ '.' :: P := by
      rw [hI, hP]
      simp
    rw [hfold]
    rw [parseDec.eq_def]
    split
    · rename_i rest hmatch
      exfalso
      cases hIc : I with
      | nil => exact hIne hIc
      | cons c I2 =>
        rw [hIc, List.cons_append] at hmatch
        injection hmatch with hc _
        have hcd : c.isDigit = true := hdI c (by rw [hIc]; exact List.mem_cons_self ..)
        exact (isDigit_ne_of hcd).2.1 hc
    · rw [hparse, habs]
      congr 1
      have h1 : ((q.num.natAbs : ℚ)) = (q.num : ℚ) := by
        rw [Int.cast_natAbs]
        exact_mod_cast abs_of_nonneg (not_lt.mp hneg)
      rw [h1, Rat.num_div_den]

theorem showPrice_eq (q : ℚ) (k : Nat) (hk : decExp q.den = some k) :
    (showPrice q).data =
      (if q.num < 0 then ['-'] else []) ++
        natToDec (q.num.natAbs * 10 ^ max k 1 / q.den / 10 ^ max k 1) ++
        '.' :: padLeft (max k 1)
          (natToDec (q.num.natAbs * 10 ^ max k 1 / q.den % 10 ^ max k 1)) := by
  unfold showPrice
  rw [hk]

theorem showPrice_chars (q : ℚ) (hs : (decExp q.den).isSome) :
    ∀ ch ∈ (showPrice q).data, ch.isDigit = true ∨ ch = '.' ∨ ch = '-' := by
  obtain ⟨k, hk⟩ := Option.isSome_iff_exists.mp hs
  rw [showPrice_eq q k hk]
  intro ch hch
  rcases List.mem_append.mp hch with h1 | h1
  · rcases List.mem_append.mp h1 with h2 | h2
    · split at h2
      · rw [List.mem_singleton] at h2
        exact Or.inr (Or.inr h2)
      · cases h2
    · exact Or.inl (natToDec_digits _ ch h2)
  · rcases List.mem_cons.mp h1 with h2 | h2
    · exact Or.inr (Or.inl h2)
    · exact Or.inl (padLeft_digits (natToDec_digits _) _ ch h2)

theorem showPrice_no_brace {q : ℚ} (hs : (decExp q.den).isSome) :
    '\x7d' ∉ (showPrice q).data := by
  intro hin
  rcases showPrice_chars q hs _ hin with h | h | h
  · exact absurd h (by decide)
  · cases h
  · cases h

theorem parseItem_formatItem (p : Point) (rest : List Char)
    (hgood : goodPoint p = true) :
    parseItem ((formatItem p).data ++ rest) = some (p, rest) := by
  rw [goodPoint, Bool.and_eq_true] at hgood
  have hq : (decExp p.price.den).isSome := hgood.1
  have hquote : '"' ∉ p.date.data := of_decide_eq_true hgood.2
  have hdata : (formatItem p).data ++ rest =
      '\x7b' :: 'd' :: 'a' :: 't' :: 'e' :: ':' :: ' ' :: '"' ::
        (p.date.data ++ '"' :: (',' :: ' ' :: 'p' :: 'r' :: 'i' :: 'c' :: 'e' :: ':' :: ' ' ::
          ((showPrice p.price).data ++ '\x7d' :: rest))) := by
    rw [formatItem]
    simp [String.data_append, List.append_assoc]
  have hprice : parseAfterPrice ((showPrice p.price).data ++ '\x7d' :: rest) =
      some (p.price, rest) := by
    rw [parseAfterPrice,
      splitFirst_singleton '\x7d' (showPrice p.price).data rest (showPrice_no_brace hq)]
    dsimp only
    rw [parseDec_showPrice p.price hq]
  have hafter : parseAfterDate p.date.data
      (',' :: ' ' :: 'p' :: 'r' :: 'i' :: 'c' :: 'e' :: ':' :: ' ' ::
        ((showPrice p.price).data ++ '\x7d' :: rest)) = some (p, rest) := by
    rw [show parseAfterDate p.date.data
        (',' :: ' ' :: 'p' :: 'r' :: 'i' :: 'c' :: 'e' :: ':' :: ' ' ::
          ((showPrice p.price).data ++ '\x7d' :: rest)) =
      (match parseAfterPrice ((showPrice p.price).data ++ '\x7d' :: rest) with
       | none => none
       | some (q, rest4) => some ({ date := String.mk p.date.data, price := q }, rest4))
      from rfl]
    rw [hprice]
  rw [hdata, parseItem, splitFirst_singleton '"' p.date.data _ hquote]
  dsimp only
  exact hafter

theorem comma_ne_endMarker (X : List Char) : (',' :: X) ≠ endMarker := by
  intro h
  rw [show endMarker = '\n' :: "            ]".data from rfl] at h
  injection h with h1 _
  exact absurd h1 (by decide)

theorem parseSep_endMarker (next : List Char → Option (List Point)) (p : Point) :
    parseSep next p endMarker = some [p] := rfl

theorem parseSep_comma_space (next : List Char → Option (List Point)) (p : Point)
    (X : List Char) :
    parseSep next p (',' :: ' ' :: X) = (next X).map (p :: ·) := by
  rw [parseSep, if_neg (comma_ne_endMarker _)]

theorem parseSep_comma_newline (next : List Char → Option (List Point)) (p : Point)
    (X : List Char) :
    parseSep next p (',' :: '\n' :: (indent16 ++ X)) = (next X).map (p :: ·) := by
  rw [parseSep, if_neg (comma_ne_endMarker _)]
  have hdrop : (indent16 ++ X).drop 16 = X := List.drop_left indent16 X
  show (if indent16.isPrefixOf (indent16 ++ X) = true then
      Option.map (fun x => p :: x) (next ((indent16 ++ X).drop 16)) else none) =
    Option.map (fun x => p :: x) (next X)
  rw [isPrefixOf_append_self, hdrop]
  simp

theorem formatItem_length_pos (p : Point) : 1 ≤ (formatItem p).data.length := by
  rw [formatItem]
  simp [String.data_append]

theorem parseItems_step (fuel : Nat) (p : Point) (rest : List Char)
    (hgood : goodPoint p = true) :
    parseItems (fuel + 1) ((formatItem p).data ++ rest) =
      parseSep (parseItems fuel) p rest := by
  rw [parseItems, parseItem_formatItem p rest hgood]

theorem parseItems_bodyChars : ∀ (data : List Point), data ≠ [] →
    (∀ p ∈ data, goodPoint p = true) →
    ∀ (fuel : Nat), (bodyChars data).length ≤ fuel →
    parseItems fuel (bodyChars data) = some data
  | [], h, _, _, _ => absurd rfl h
  | [p], _, hg, fuel, hf => by
    have hlen : 1 ≤ (bodyChars [p]).length := by
      rw [bodyChars, List.length_append]
      have := formatItem_length_pos p
      omega
    cases fuel with
    | zero => omega
    | succ f =>
      rw [bodyChars, parseItems_step f p endMarker (hg p (List.mem_singleton.mpr rfl)),
        parseSep_endMarker]
  | p :: q :: rest, _, hg, fuel, hf => by
    have hgp : goodPoint p = true := hg p (by simp)
    have hgq : goodPoint q = true := hg q (by simp)
    have hlenp := formatItem_length_pos p
    have hlenq := formatItem_length_pos q
    have hlen : (bodyChars (p :: q :: rest)).length =
        (formatItem p).data.length + 2 + (formatItem q).data.length +
          (if rest = [] then endMarker.length
           else 18 + (bodyChars rest).length) := by
      rw [bodyChars]
      split
      · simp [List.length_append]
        omega
      · simp [List.length_append, indent16]
        omega
    cases fuel with
    | zero =>
      rw [hlen] at hf
      split at hf <;> omega
    | succ f =>
      cases f with
      | zero =>
        rw [hlen] at hf
        split at hf <;> omega
      | succ f =>
        rw [bodyChars]
        rw [show (formatItem p).data ++ ',' :: ' ' :: ((formatItem q).data ++
            (if rest = [] then endMarker
             else ',' :: '\n' :: (indent16 ++ bodyChars rest))) =
          (formatItem p).data ++ (',' :: ' ' :: ((formatItem q).data ++
            (if rest = [] then endMarker
             else ',' :: '\n' :: (indent16 ++ bodyChars rest)))) from rfl]
        rw [parseItems_step (f + 1) p _ hgp, parseSep_comma_space,
          parseItems_step f q _ hgq]
        by_cases hrest : rest = []
        · subst hrest
          rw [if_pos rfl, parseSep_endMarker]
          rfl
        · rw [if_neg hrest, parseSep_comma_newline]
          have hrec : parseItems f (bodyChars rest) = some rest := by
            apply parseItems_bodyChars rest hrest
              (fun x hx => hg x (by simp [hx]))
            rw [hlen, if_neg hrest] at hf
            omega
          rw [hrec]
          rfl

theorem chunk2_ne_nil {α : Type} (x : α) (xs : List α) : chunk2 (x :: xs) ≠ [] := by
  cases xs with
  | nil => simp [chunk2]
  | cons y ys => simp [chunk2]

theorem lines_data : ∀ (data : List Point), data ≠ [] →
    (joinSep ",\n" ((chunk2 (data.map formatItem)).map
        (fun chunk => "                " ++ joinSep ", " chunk))).data ++ endMarker =
      indent16 ++ bodyChars data
  | [], h => absurd rfl h
  | [p], _ => by
    simp only [List.map_cons, List.map_nil, chunk2, joinSep, bodyChars]
    simp [String.data_append, indent16, List.append_assoc]
  | [p, q], _ => by
    simp only [List.map_cons, List.map_nil, chunk2, joinSep, bodyChars]
    simp [String.data_append, indent16, List.append_assoc]
  | p :: q :: r :: t, _ => by
    have IH := lines_data (r :: t) (by simp)
    obtain ⟨c, cs, hc⟩ : ∃ c cs, chunk2 ((r :: t).map formatItem) = c :: cs := by
      cases hcc : chunk2 ((r :: t).map formatItem) with
      | nil =>
        exfalso
        rw [List.map_cons] at hcc
        exact chunk2_ne_nil _ _ hcc
      | cons c cs => exact ⟨c, cs, rfl⟩
    simp only [List.map_cons] at IH hc ⊢
    rw [show chunk2 (formatItem p :: formatItem q :: formatItem r :: t.map formatItem) =
      [formatItem p, formatItem q] :: chunk2 (formatItem r :: t.map formatItem) from rfl]
    rw [hc] at IH ⊢
    simp only [List.map_cons]
    rw [show joinSep ",\n" (("                " ++ joinSep ", " [formatItem p, formatItem q]) ::
        ("                " ++ joinSep ", " c) ::
        (cs.map (fun chunk => "                " ++ joinSep ", " chunk))) =
      ("                " ++ joinSep ", " [formatItem p, formatItem q]) ++ ",\n" ++
        joinSep ",\n" (("                " ++ joinSep ", " c) ::
          (cs.map (fun chunk => "                " ++ joinSep ", " chunk))) from rfl]
    rw [bodyChars]
    rw [if_neg (by simp : ¬ (r :: t : List Point) = [])]
    rw [show joinSep ", " [formatItem p, formatItem q] =
      formatItem p ++ ", " ++ joinSep ", " [formatItem q] from rfl]
    rw [show joinSep ", " [formatItem q] = formatItem q from rfl]
    simp only [List.map_cons] at IH
    simp only [String.data_append, List.append_assoc] at IH ⊢
    rw [IH]
    simp [indent16, List.append_assoc]

theorem format_data_eq_bodyChars (data : List Point) (h : data ≠ []) :
    (format_data_for_js data).data = '[' :: '\n' :: (indent16 ++ bodyChars data) := by
  rw [format_data_for_js, if_neg h]
  dsimp only
  simp only [String.data_append]
  rw [show (['\n', ' ', ' ', ' ', ' ', ' ', ' ', ' ', ' ', ' ', ' ', ' ', ' ', ']'] : List Char) =
    endMarker from rfl]
  rw [List.append_assoc, lines_data data h]
  rfl

/-- C9: `format_data_for_js` maps the empty series to the literal `"[]"`; for
every non-empty series whose points are representable (finite-decimal price,
no quote in the date — true of every value the script handles), the emitted
block — one `{date: "...", price: ...}` object per point in series order,
grouped two per line — re-parses to exactly the original sequence of points
(`parsePoints` inverts the formatter). -/
theorem c9_format_roundtrip :
    format_data_for_js [] = "[]" ∧
    ∀ (data : List Point), data ≠ [] → (∀ p ∈ data, goodPoint p = true) →
      parsePoints (format_data_for_js data) = some data := by
  refine ⟨rfl, ?_⟩
  intro data hne hgood
  rw [parsePoints, format_data_eq_bodyChars data hne]
  show (if indent16.isPrefixOf (indent16 ++ bodyChars data) = true then
      parseItems (indent16 ++ bodyChars data).length
        ((indent16 ++ bodyChars data).drop 16)
    else none) = some data
  rw [isPrefixOf_append_self, if_pos rfl]
  have hdrop : (indent16 ++ bodyChars data).drop 16 = bodyChars data :=
    List.drop_left indent16 (bodyChars data)
  rw [hdrop]
  apply parseItems_bodyChars data hne hgood
  rw [List.length_append]
  omega

set_option maxRecDepth 100000 in
/-- C9 (witness): the spec's example series round-trips with its exact
numeric values. -/
theorem c9_witness :
    parsePoints (format_data_for_js
      [{ date := "2025-01-01", price := (10.5 : ℚ) },
       { date := "2025-01-02", price := (11.0 : ℚ) }]) =
      some [{ date := "2025-01-01", price := (10.5 : ℚ) },
            { date := "2025-01-02", price := (11.0 : ℚ) }] :=
  c9_format_roundtrip.2 _ (List.cons_ne_nil _ _) (by with_unfolding_all decide)
